import Mathlib

/-!
Verification development for the project_odin command-line client
(`main.py`).  The program is a thin CLI shell around a Neo4j database:
it parses `!`-prefixed commands, builds Cypher query strings (several of
them by direct concatenation of user input), keeps a flat-file registry
of channel names, and converts timestamps between the
`YYYY-MM-DD_HH:MM` input format and unix-epoch seconds.

The embedding below models:
 - Python strings as `List Char` (`Str`), with the string operations the
   source uses (`split`, `startswith`, `upper`, `int()` parsing,
   zero-padded decimal formatting) defined structurally so that every
   definition is executable by the kernel;
 - `App.get_unixtime` / `App.get_datetime`, including the proleptic
   Gregorian calendar arithmetic performed by Python's
   `datetime` / `time.mktime` / `datetime.utcfromtimestamp`.  `time.mktime`
   interprets the civil time in the *local* timezone while
   `utcfromtimestamp` renders UTC; the local timezone is made explicit
   as a `tzWest` parameter (seconds west of UTC, `0` = UTC);
 - the channel registry (`load_channels` / `channel_exists` /
   `add_channel`) with the channels file as raw character content;
 - the query-string builders of `_add_poi`, `_update_poi`, `_add_ci`
   and the read queries;
 - the `CommandLine` dispatch loop as a step function over the CLI
   state (`BASIC` / `ADVANCED` / `QUIT`), with external interactions
   (prints, database calls, file appends) recorded as a trace of
   `Effect`s and database outcomes supplied by an oracle
   `db : Str → Option PyErr` (exceptions are modeled as values).
-/

set_option maxRecDepth 40000

namespace Odin

/-- Python strings are modeled as lists of characters. -/
abbrev Str := List Char

/-! ## Basic string operations -/

/-- Model of `re.split("[-_:]", s)`: split at every `-`, `_` or `:`. -/
def isTimeSep (c : Char) : Bool := c = '-' || c = '_' || c = ':'

/-- Split a string at every character satisfying the given test,
keeping empty chunks (as Python's `split` with an explicit separator
and `re.split` with a character class do). -/
def splitWhen (p : Char → Bool) : Str → List Str
  | [] => [[]]
  | c :: cs =>
    if p c then [] :: splitWhen p cs
    else
      match splitWhen p cs with
      | [] => [[c]]
      | t :: ts => (c :: t) :: ts

/-- Model of Python's `s.split(sep)` for a single-character separator:
splits at every occurrence, keeping empty chunks. -/
def splitOnChar (sep : Char) : Str → List Str := splitWhen (fun c => c == sep)

/-- Model of Python's `s.startswith(pat)`. -/
def strStarts : Str → Str → Bool
  | [], _ => true
  | _ :: _, [] => false
  | p :: ps, c :: cs => p = c && strStarts ps cs

/-- Model of `str.upper` on one character (ASCII, which is all the
source's channel names use). -/
def upChar (c : Char) : Char :=
  if h : 97 ≤ c.toNat ∧ c.toNat ≤ 122 then
    Char.ofNatAux (c.toNat - 32) (Or.inl (by omega))
  else c

/-- Model of Python's `s.upper()` (ASCII). -/
def upperS (s : Str) : Str := s.map upChar

/-! ## Decimal digits: parsing (`int()`) and zero-padded formatting -/

/-- The character for a decimal digit value. -/
def digitChar : Nat → Char
  | 0 => '0' | 1 => '1' | 2 => '2' | 3 => '3' | 4 => '4'
  | 5 => '5' | 6 => '6' | 7 => '7' | 8 => '8' | _ => '9'

/-- Test for an ASCII decimal digit. -/
def isDigitC (c : Char) : Bool := 48 ≤ c.toNat && c.toNat ≤ 57

/-- Value of a big-endian digit string (used after checking digits). -/
def digitsVal (cs : Str) : Nat :=
  cs.foldl (fun a c => a * 10 + (c.toNat - 48)) 0

/-- Little-endian decimal digits of `n` (with fuel, structurally). -/
def natDigitsRev : Nat → Nat → List Nat
  | 0, _ => []
  | _ + 1, 0 => []
  | fuel + 1, n + 1 => (n + 1) % 10 :: natDigitsRev fuel ((n + 1) / 10)

/-- Big-endian digit characters of `n` (empty for `0`). -/
def natChars (n : Nat) : Str := ((natDigitsRev n n).reverse).map digitChar

/-- Model of Python's `str(n)` for a natural number. -/
def natRepr (n : Nat) : Str := if n = 0 then ['0'] else natChars n

/-- Left-pad with `'0'` to the given width (as `strftime` does). -/
def leftPadZero (width : Nat) (s : Str) : Str :=
  List.replicate (width - s.length) '0' ++ s

/-- Two-digit zero-padded field of `strftime` (`%m`, `%d`, `%H`, `%M`, `%S`). -/
def pad2 (n : Nat) : Str := leftPadZero 2 (natRepr n)

/-- Four-digit zero-padded year field of `strftime` (`%Y`). -/
def pad4 (n : Nat) : Str := leftPadZero 4 (natRepr n)

/-! ## Errors -/

/-- Python exceptions relevant to the CLI, modeled as values. -/
inductive PyErr
  /-- `ValueError` (failed `int()`, bad `datetime` fields, unpack mismatch). -/
  | valueError (msg : Str)
  /-- `IndexError` (indexing an empty argument list). -/
  | indexError
  /-- `neo4j.exceptions.CypherSyntaxError` (ADVANCED mode only). -/
  | cypherSyntax
  /-- any exception raised by the database driver. -/
  | dbError (msg : Str)
deriving DecidableEq

deriving instance DecidableEq for Except

/-- The text printed for an exception by `print(f)` in the input loop. -/
def pyMsg : PyErr → Str
  | .valueError m => m
  | .indexError => ("list index out of range").data
  | .cypherSyntax => ("cypher syntax error").data
  | .dbError m => m

/-- The generic `ValueError` raised by a mismatched tuple unpacking
such as `poi, key, value = user_input.split(' ')[1:]`. -/
def unpackErr : PyErr := .valueError (("values to unpack mismatch").data)

/-- Model of `int(s)` restricted to the digit strings the timestamp
format produces: non-empty all-digit strings parse, anything else
raises `ValueError`. -/
def parseDigits : Str → Except PyErr Nat
  | [] => .error (.valueError (("invalid literal for int").data))
  | cs =>
    if cs.all isDigitC then .ok (digitsVal cs)
    else .error (.valueError (("invalid literal for int").data))

/-! ## Calendar arithmetic (model of `datetime` / `mktime` /
`utcfromtimestamp` over the proleptic Gregorian calendar) -/

/-- Gregorian leap-year test. -/
def isLeap (y : Nat) : Bool := (y % 4 == 0 && y % 100 != 0) || y % 400 == 0

/-- Days in a month of a given year. -/
def daysInMonth (y m : Nat) : Nat :=
  if m = 2 then (if isLeap y then 29 else 28)
  else if m = 4 ∨ m = 6 ∨ m = 9 ∨ m = 11 then 30 else 31

/-- Days in a year. -/
def daysInYear (y : Nat) : Nat := if isLeap y then 366 else 365

/-- Total days of `k` consecutive months starting at month `m` of year `y`
(months do not wrap: only used with `m + k ≤ 13`). -/
def sumMonthDays (y : Nat) : Nat → Nat → Nat
  | _, 0 => 0
  | m, k + 1 => daysInMonth y m + sumMonthDays y (m + 1) k

/-- Total days of `k` consecutive years starting at year `y`. -/
def sumYearDays : Nat → Nat → Nat
  | _, 0 => 0
  | y, k + 1 => daysInYear y + sumYearDays (y + 1) k

/-- Days from 1970-01-01 to year `y`, month `m`, day `d` (for `y ≥ 1970`). -/
def daysFromCivil (y m d : Nat) : Nat :=
  sumYearDays 1970 (y - 1970) + sumMonthDays y 1 (m - 1) + (d - 1)

/-- Split a day count into (year, day-of-year), starting from year `y`,
with explicit fuel so the kernel can evaluate it. -/
def splitYear : Nat → Nat → Nat → Nat × Nat
  | 0, y, n => (y, n)
  | fuel + 1, y, n =>
    if n < daysInYear y then (y, n) else splitYear fuel (y + 1) (n - daysInYear y)

/-- Split a day-of-year into (month, day-of-month index), starting from
month `m` of year `y`, with explicit fuel. -/
def splitMonth (y : Nat) : Nat → Nat → Nat → Nat × Nat
  | 0, m, n => (m, n)
  | fuel + 1, m, n =>
    if n < daysInMonth y m then (m, n) else splitMonth y fuel (m + 1) (n - daysInMonth y m)

/-- Unix-epoch seconds (UTC) of a civil date-time. -/
def unixOfTuple (y m d h mi : Nat) : Nat :=
  daysFromCivil y m d * 86400 + h * 3600 + mi * 60

/-! ## `App.get_unixtime` and `App.get_datetime` -/

/-- Models `App.get_unixtime`: `re.split("[-_:]", s)`, `int()` of the
first five fields, `datetime(year, month, day, hour, minute)` (which
validates the field ranges and raises `ValueError` otherwise), then
`time.mktime`, which interprets the civil time in the process's local
timezone — made explicit as `tzWest`, the local offset in seconds west
of UTC (`0` models a UTC environment).  The source returns
`str(int(unixtime))`; we return the integer value (its decimal string
is `natRepr` of it, used where the source concatenates it into query
text).  The model is restricted to years 1970–9999: `datetime` itself
rejects years outside 1–9999, and `mktime` on pre-epoch dates is
platform-dependent. -/
def get_unixtime (tzWest : Nat) (date_time : Str) : Except PyErr Nat :=
  match splitWhen isTimeSep date_time with
  | ys :: mos :: ds :: hs :: mis :: _ =>
    match parseDigits ys, parseDigits mos, parseDigits ds,
        parseDigits hs, parseDigits mis with
    | .ok y, .ok mo, .ok d, .ok h, .ok mi =>
      if 1970 ≤ y ∧ y ≤ 9999 ∧ 1 ≤ mo ∧ mo ≤ 12 ∧ 1 ≤ d ∧ d ≤ daysInMonth y mo
          ∧ h ≤ 23 ∧ mi ≤ 59 then
        .ok (unixOfTuple y mo d h mi + tzWest)
      else .error (.valueError (("bad datetime field").data))
    | .error e, _, _, _, _ => .error e
    | _, .error e, _, _, _ => .error e
    | _, _, .error e, _, _ => .error e
    | _, _, _, .error e, _ => .error e
    | _, _, _, _, .error e => .error e
  | _ => .error .indexError

/-- Models `App.get_datetime`:
`datetime.utcfromtimestamp(u).strftime('%Y-%m-%d %H:%M:%S')`. -/
def get_datetime (u : Nat) : Str :=
  let days := u / 86400
  let rem := u % 86400
  let yd := splitYear days 1970 days
  let md := splitMonth yd.1 12 1 yd.2
  pad4 yd.1 ++ ("-").data ++ pad2 md.1 ++ ("-").data ++ pad2 (md.2 + 1)
    ++ (" ").data ++ pad2 (rem / 3600) ++ (":").data ++ pad2 (rem % 3600 / 60)
    ++ (":").data ++ pad2 (rem % 60)

/-- The canonical `YYYY-MM-DD_HH:MM` input string for a civil tuple. -/
def fmtTimestampIn (y m d h mi : Nat) : Str :=
  pad4 y ++ ("-").data ++ pad2 m ++ ("-").data ++ pad2 d
    ++ ("_").data ++ pad2 h ++ (":").data ++ pad2 mi

/-- The `YYYY-MM-DD HH:MM:SS` display string for a civil tuple (seconds 0). -/
def fmtTimestampOut (y m d h mi : Nat) : Str :=
  pad4 y ++ ("-").data ++ pad2 m ++ ("-").data ++ pad2 d
    ++ (" ").data ++ pad2 h ++ (":").data ++ pad2 mi ++ (":00").data

/-! ## Channel registry (`App.load_channels` / `channel_exists` /
`add_channel`) -/

/-- Drop the trailing empty chunk produced by splitting content that
ends with a newline (Python's file-line iteration yields no final
empty line). -/
def dropLastEmpty (l : List Str) : List Str :=
  match l.getLast? with
  | some [] => l.dropLast
  | _ => l

/-- Models `App.load_channels`: the lines of the channels file, each
with its newline removed (`line.replace("\n", "")`).  The file is its
raw character content. -/
def load_channels (content : Str) : List Str :=
  dropLastEmpty (splitOnChar '\n' content)

/-- The registry state: the channels file's raw content and the
in-memory channel set (a Python `set`, modeled as a list up to
membership). -/
structure RegState where
  file : Str
  channels : List Str
deriving DecidableEq

/-- Models `App.channel_exists`: an exact membership test of the
upper-cased name against the loaded lines. -/
def channel_exists (channels : List Str) (channel : Str) : Bool :=
  if upperS channel ∈ channels then true else false

/-- Models `App.add_channel`: if `channel_exists` reports the name,
print "Channel already exists" and do nothing; otherwise append the
upper-cased name plus a newline to the file and reload the registry.
The file append is recorded as an `append` trace entry (defined below
as `Effect.fileAppend` at the CLI level; here we return the appended
text so the registry model stands on its own). -/
def add_channel (st : RegState) (channel : Str) : RegState × Option Str :=
  if channel_exists st.channels channel then (st, none)
  else
    let file2 := st.file ++ upperS channel ++ ['\n']
    (⟨file2, load_channels file2⟩, some (upperS channel ++ ['\n']))

/-! ## Query-string builders (the source's `_add_poi`, `_update_poi`,
`_add_ci` build query text by direct concatenation of their string
arguments; the read queries bind `$`-parameters) -/

/-- Query text of `App._add_poi` (braces written `\x7b`/`\x7d`). -/
def addPoiQuery (name : Str) : Str :=
  ("CREATE (p:POI \x7bname: \x27").data ++ name ++ ("\x27 \x7d)RETURN p.name AS name").data

/-- Query text of `App._update_poi`. -/
def updatePoiQuery (poi info_key info_value : Str) : Str :=
  ("MATCH (poi:POI \x7bname: \x27").data ++ poi
    ++ ("\x27\x7d) SET poi.").data ++ info_key
    ++ (" = \x27").data ++ info_value ++ ("\x27 RETURN poi").data

/-- Query text of `App._add_ci` (`start`/`end` arrive as the decimal
strings `str(int(mktime(...)))`). -/
def addCiQuery (relationship contacting contacted start_s end_s : Str) : Str :=
  ("MATCH (contacting:POI \x7bname: \x27").data ++ contacting
    ++ ("\x27 \x7d) MATCH (contacted:POI \x7bname: \x27").data ++ contacted
    ++ ("\x27\x7d) MERGE (contacting)-[ci:").data ++ relationship
    ++ (" \x7bstart_time: ").data ++ start_s
    ++ (", end_time: ").data ++ end_s
    ++ ("\x7d]->(contacted) RETURN contacting, contacted, ci").data

/-- Query text of `App._get_direct_channels` (parameterized). -/
def directChannelsQuery : Str :=
  ("MATCH (p1:POI \x7b name: $p1\x7d)-[r]-(p2:POI \x7bname: $p2\x7d) RETURN r, startNode(r).name as start_node, endNode(r).name as end_node, TYPE(r) as type ORDER BY r.start_time").data

/-- Query text of `App._find_all_outgoing_contacts` (parameterized). -/
def outgoingQuery : Str :=
  ("MATCH (poi:POI \x7b name: $poi\x7d)-[r]->(n)RETURN r, startNode(r).name as start_node, endNode(r).name as end_node, TYPE(r) as type ORDER BY r.start_time").data

/-- Query text of `App._get_channels_date` (concatenates the two
timestamp strings). -/
def channelsDateQuery (from_s to_s : Str) : Str :=
  ("MATCH (n1)-[r]->(n2)WHERE ").data ++ from_s
    ++ (" <= r.start_time <= ").data ++ to_s
    ++ (" RETURN r, startNode(r).name as start_node, endNode(r).name as end_node, TYPE(r) as type ORDER BY r.start_time").data

/-- Query text of `App._communicated_with` (concatenates the POI name
and the degree bound). -/
def communicatedWithQuery (poi degrees : Str) : Str :=
  ("MATCH p = (poi:POI \x7bname: \x27").data ++ poi
    ++ ("\x27\x7d)-[*..").data ++ degrees
    ++ ("]-(n:POI) WHERE n.name <> \x27").data ++ poi
    ++ ("\x27 WITH relationships(p) as contacts, length(p) as length, n.name as contacted RETURN DISTINCT contacts, length, contacted ORDER BY length").data

/-- Query text of `App._communication_between`. -/
def commBetweenQuery (x y : Str) : Str :=
  ("MATCH (x:POI \x7bname: \x27").data ++ x
    ++ ("\x27\x7d), (y:POI \x7bname: \x27").data ++ y
    ++ ("\x27\x7d), p = SHORTESTPATH((x)-[*]-(y)) RETURN p").data

/-! ## `App.communicated_with` result rendering -/

/-- `length - 1` copies of the intermediate marker `"(POI)---"`. -/
def markerRep : Nat → Str
  | 0 => []
  | n + 1 => ("(POI)---").data ++ markerRep n

/-- The single output line printed for one kept row: the path length,
the source POI, `length - 1` intermediate markers, and the contacted
name (the source composes it from several `print(..., end="")` calls). -/
def renderRow (poi contacted : Str) (length : Nat) : Str :=
  natRepr length ++ ("          (").data ++ poi ++ (")---").data
    ++ markerRep (length - 1) ++ ("(").data ++ contacted ++ (")").data

/-- Models the row loop of `App.communicated_with`: rows whose
`contacted` name was already seen are skipped, others are rendered and
their name added to the `contacted` set. -/
def renderRows (poi : Str) : List (Str × Nat) → List Str → List Str
  | [], _ => []
  | (c, len) :: rest, seen =>
    if c ∈ seen then renderRows poi rest seen
    else renderRow poi c len :: renderRows poi rest (c :: seen)

/-- The lines printed by `App.communicated_with` after the
"Length between" header, for a given result-row list. -/
def communicated_with_render (poi : Str) (rows : List (Str × Nat)) : List Str :=
  renderRows poi rows []

/-- First occurrence of each `contacted` name, in row order. -/
def firstOcc : List (Str × Nat) → List Str → List (Str × Nat)
  | [], _ => []
  | (c, len) :: rest, seen =>
    if c ∈ seen then firstOcc rest seen
    else (c, len) :: firstOcc rest (c :: seen)

/-- The path length carried by the first row for a given name. -/
def firstVal (c : Str) : List (Str × Nat) → Option Nat
  | [] => none
  | (c2, len) :: rest => if c2 = c then some len else firstVal c rest

/-! ## The command line (`CommandLine`) -/

/-- The CLI states of `main.py`. -/
inductive CLIState
  | QUIT
  | BASIC
  | ADVANCED
deriving DecidableEq

/-- Externally visible actions of one loop iteration: console prints,
database transactions (carrying the executed query text), the raw
auto-committed query of ADVANCED mode, and channels-file appends. -/
inductive Effect
  | print (s : Str)
  | dbWrite (q : Str)
  | dbRead (q : Str)
  | dbAuto (q : Str)
  | fileAppend (s : Str)
deriving DecidableEq

/-- Outcome of database transactions, supplied externally: `none` means
the transaction succeeded, `some e` that the driver raised `e`.
(Result rows, and the prints derived from them, are outside the
model.) -/
abbrev DbOracle := Str → Option PyErr

/-- Python `repr` of a list of strings (as `print(f'adding poi {name}')`
shows for a list; exact for quote-free strings). -/
def pyRepr : List Str → Str
  | [] => ("[]").data
  | l => ("[").data ++ pyReprBody l ++ ("]").data
where
  /-- comma-separated quoted elements. -/
  pyReprBody : List Str → Str
  | [] => []
  | [s] => '\x27' :: s ++ ['\x27']
  | s :: rest => '\x27' :: s ++ ['\x27'] ++ (", ").data ++ pyReprBody rest

/-- `user_input.split(' ')[1:]`: the positional arguments after the
command token. -/
def splitArgs (input : Str) : List Str := (splitOnChar ' ' input).drop 1

/-- The table separator line the `App` display methods print. -/
def dashLine : Str :=
  ("------------------------------------------------------------------------------------------------------------------").data

/-- The table header line the `App` display methods print. -/
def tableHeader : Str :=
  ("Type         Contacting          Contacted           Start time              End time").data

/-- Models `CommandLine.add_poi`: takes `split(' ')[1:]` and uses only
element `[0]` (an empty argument list would raise `IndexError`).  Note
it does not unpack, so surplus arguments are accepted. -/
def cl_add_poi (db : DbOracle) (input : Str) : List Effect × Option PyErr :=
  match splitArgs input with
  | [] => ([], some .indexError)
  | a :: rest =>
    ([.print (("adding poi ").data ++ pyRepr (a :: rest)),
      .dbWrite (addPoiQuery a)], db (addPoiQuery a))

/-- Models `CommandLine.update_poi`: unpacks exactly three arguments,
then `App.update_poi`. -/
def cl_update_poi (db : DbOracle) (input : Str) : List Effect × Option PyErr :=
  match splitArgs input with
  | [poi, info_key, info_value] =>
    let pr := Effect.print (("updating ").data ++ poi ++ (" with key ").data
      ++ info_key ++ (" and value ").data ++ info_value)
    let q := updatePoiQuery poi info_key info_value
    match db q with
    | some e => ([pr, .dbWrite q], some e)
    | none => ([pr, .dbWrite q,
        .print (("updated record of ").data ++ poi ++ (":").data)], none)
  | _ => ([], some unpackErr)

/-- Models `CommandLine.add_channel`: unpacks exactly one argument,
then `App.add_channel` on the registry. -/
def cl_add_channel (st : RegState) (input : Str) :
    RegState × List Effect × Option PyErr :=
  match splitArgs input with
  | [channel] =>
    let pr := Effect.print (("adding ").data ++ channel ++ (" to the database").data)
    match add_channel st channel with
    | (st2, none) => (st2, [pr, .print (("Channel already exists").data)], none)
    | (st2, some appended) => (st2, [pr, .fileAppend appended], none)
  | _ => (st, [], some unpackErr)

/-- Models `CommandLine.outgoing_channels`: uses only argument `[0]`
(surplus arguments accepted), then `App.find_all_outgoing_contacts`. -/
def cl_outgoing (db : DbOracle) (input : Str) : List Effect × Option PyErr :=
  match splitArgs input with
  | [] => ([], some .indexError)
  | p :: _ =>
    ([.print (("find all outgoing channels from ").data ++ p),
      .print dashLine, .print tableHeader, .print dashLine,
      .dbRead outgoingQuery], db outgoingQuery)

/-- Models `CommandLine.communicated_with`: unpacks exactly two
arguments, then `App.communicated_with` (whose row rendering is
`communicated_with_render`). -/
def cl_communicated_with (db : DbOracle) (input : Str) :
    List Effect × Option PyErr :=
  match splitArgs input with
  | [poi, degrees] =>
    let pr := Effect.print (("who has ").data ++ poi
      ++ (" communicated with? degrees of separation: ").data ++ degrees)
    let q := communicatedWithQuery poi degrees
    match db q with
    | some e => ([pr, .dbRead q], some e)
    | none => ([pr, .dbRead q, .print (("Length between").data)], none)
  | _ => ([], some unpackErr)

/-- Models `CommandLine.communication_between`: unpacks exactly two
arguments, then `App.communication_between`. -/
def cl_comm_between (db : DbOracle) (input : Str) : List Effect × Option PyErr :=
  match splitArgs input with
  | [x, y] =>
    let pr := Effect.print (("has ").data ++ x ++ (" and ").data ++ y
      ++ (" communicated?").data)
    let q := commBetweenQuery x y
    match db q with
    | some e => ([pr, .dbRead q], some e)
    | none => ([pr, .dbRead q,
        .print (("the chain of relationships between ").data ++ x
          ++ (" and ").data ++ y ++ (":").data)], none)
  | _ => ([], some unpackErr)

/-- Models `CommandLine.add_ci`: unpacks exactly five arguments as
`poi1, channel, poi2, start, end`, checks `App.channel_exists` on the
*second* argument, and only on success converts the timestamps and
issues the MERGE write. -/
def cl_add_ci (db : DbOracle) (tzWest : Nat) (st : RegState) (input : Str) :
    List Effect × Option PyErr :=
  match splitArgs input with
  | [poi1, channel, poi2, start, end_] =>
    if channel_exists st.channels channel then
      let pr := Effect.print (("adding ").data ++ channel ++ (" between ").data
        ++ poi1 ++ (" and ").data ++ poi2 ++ (" with start time ").data
        ++ start ++ (" and end time ").data ++ end_)
      match get_unixtime tzWest start with
      | .error e => ([pr], some e)
      | .ok s_v =>
        match get_unixtime tzWest end_ with
        | .error e => ([pr], some e)
        | .ok e_v =>
          let q := addCiQuery (upperS channel) poi1 poi2 (natRepr s_v) (natRepr e_v)
          ([pr, .dbWrite q], db q)
    else
      ([.print (("specified channel does not exist, please add channel first (!add_channel).").data)],
        none)
  | _ => ([], some unpackErr)

/-- Models `CommandLine.direct_channels`: unpacks exactly two
arguments, then `App.get_direct_channels`. -/
def cl_direct_channels (db : DbOracle) (input : Str) : List Effect × Option PyErr :=
  match splitArgs input with
  | [p1, p2] =>
    ([.print (("finding the direct channels between ").data ++ p1
        ++ (" and ").data ++ p2),
      .print dashLine, .print tableHeader, .print dashLine,
      .dbRead directChannelsQuery], db directChannelsQuery)
  | _ => ([], some unpackErr)

/-- Models `CommandLine.channels_date`: unpacks exactly two arguments,
then `App.get_channels_date` (timestamp conversion may raise; the
table header is printed after the transaction). -/
def cl_channels_date (db : DbOracle) (tzWest : Nat) (input : Str) :
    List Effect × Option PyErr :=
  match splitArgs input with
  | [fromD, toD] =>
    let pr := Effect.print (("finding channels between ").data ++ fromD
      ++ (" and ").data ++ toD)
    match get_unixtime tzWest fromD with
    | .error e => ([pr], some e)
    | .ok f_v =>
      match get_unixtime tzWest toD with
      | .error e => ([pr], some e)
      | .ok t_v =>
        let q := channelsDateQuery (natRepr f_v) (natRepr t_v)
        match db q with
        | some e => ([pr, .dbRead q], some e)
        | none => ([pr, .dbRead q, .print dashLine, .print tableHeader,
            .print dashLine], none)
  | _ => ([], some unpackErr)

/-- The BASIC-mode command dispatch: the `elif user_input.startswith`
chain of `CommandLine.run`, in source order, with the unknown-command
fallback. -/
def dispatchBasic (tzWest : Nat) (db : DbOracle) (reg : RegState) (input : Str) :
    RegState × List Effect × Option PyErr :=
  if strStarts (("!add_poi ").data) input then (reg, cl_add_poi db input)
  else if strStarts (("!update_poi ").data) input then (reg, cl_update_poi db input)
  else if strStarts (("!add_channel ").data) input then cl_add_channel reg input
  else if strStarts (("!outgoing ").data) input then (reg, cl_outgoing db input)
  else if strStarts (("!communicated_with ").data) input then
    (reg, cl_communicated_with db input)
  else if strStarts (("!comm_between ").data) input then (reg, cl_comm_between db input)
  else if strStarts (("!add_ci ").data) input then (reg, cl_add_ci db tzWest reg input)
  else if strStarts (("!direct_channels ").data) input then
    (reg, cl_direct_channels db input)
  else if strStarts (("!channels_date ").data) input then
    (reg, cl_channels_date db tzWest input)
  else (reg, [Effect.print (("unknown command: ").data ++ input)], none)

/-- One BASIC-mode loop iteration of `CommandLine.run`: the literal
tokens `!q` / `!adv` / `!basic` switch state; everything else goes
through `dispatchBasic` inside the `try`, whose `except` prints any
raised exception and leaves the state as it was. -/
def stepBasic (tzWest : Nat) (db : DbOracle) (reg : RegState) (input : Str) :
    CLIState × RegState × List Effect :=
  if input = ("!q").data then (.QUIT, reg, [])
  else if input = ("!adv").data then (.ADVANCED, reg, [])
  else if input = ("!basic").data then (.BASIC, reg, [])
  else
    match dispatchBasic tzWest db reg input with
    | (reg2, effs, none) => (.BASIC, reg2, effs)
    | (reg2, effs, some e) => (.BASIC, reg2, effs ++ [.print (pyMsg e)])

/-- One ADVANCED-mode loop iteration of `CommandLine.run`: `!q` /
`!basic` / `!adv` switch state; any other line is sent verbatim as an
auto-committed query; a `CypherSyntaxError` is caught locally and
printed as "invalid query", any other driver exception propagates to
the loop's catch-all print. -/
def stepAdv (db : DbOracle) (reg : RegState) (input : Str) :
    CLIState × RegState × List Effect :=
  if input = ("!q").data then (.QUIT, reg, [])
  else if input = ("!basic").data then (.BASIC, reg, [])
  else if input = ("!adv").data then (.ADVANCED, reg, [])
  else
    match db input with
    | some PyErr.cypherSyntax =>
      (.ADVANCED, reg, [.dbAuto input, .print (("invalid query: ").data ++ input)])
    | some e => (.ADVANCED, reg, [.dbAuto input, .print (pyMsg e)])
    | none => (.ADVANCED, reg, [.dbAuto input])

/-- One loop iteration from any state. -/
def step (tzWest : Nat) (db : DbOracle) (s : CLIState) (reg : RegState)
    (input : Str) : CLIState × RegState × List Effect :=
  match s with
  | .BASIC => stepBasic tzWest db reg input
  | .ADVANCED => stepAdv db reg input
  | .QUIT => (.QUIT, reg, [])

/-- The `while self.state != CLIState.QUIT` input loop over a list of
input lines: the loop condition is checked before each read, so a QUIT
state consumes no further input. -/
def run (tzWest : Nat) (db : DbOracle) :
    CLIState → RegState → List Str → CLIState × RegState
  | s, reg, [] => (s, reg)
  | s, reg, input :: rest =>
    if s = .QUIT then (s, reg)
    else
      let r := step tzWest db s reg input
      run tzWest db r.1 r.2.1 rest

/-! ## Lemmas: characters and `upper` -/

theorem upChar_toNat_of_lower {c : Char} (h : 97 ≤ c.toNat ∧ c.toNat ≤ 122) :
    (upChar c).toNat = c.toNat - 32 := by
  unfold upChar
  rw [dif_pos h]
  rfl

theorem upChar_eq_of_not_lower {c : Char} (h : ¬ (97 ≤ c.toNat ∧ c.toNat ≤ 122)) :
    upChar c = c := by
  unfold upChar
  rw [dif_neg h]

/-- The image of `upChar` never contains a lowercase ASCII letter. -/
theorem upChar_not_lower (c : Char) :
    ¬ (97 ≤ (upChar c).toNat ∧ (upChar c).toNat ≤ 122) := by
  by_cases h : 97 ≤ c.toNat ∧ c.toNat ≤ 122
  · rw [upChar_toNat_of_lower h]; omega
  · rw [upChar_eq_of_not_lower h]; exact h

theorem upChar_idem (c : Char) : upChar (upChar c) = upChar c :=
  upChar_eq_of_not_lower (upChar_not_lower c)

theorem upperS_idem (s : Str) : upperS (upperS s) = upperS s := by
  induction s with
  | nil => rfl
  | cons c cs ih =>
    show upChar (upChar c) :: upperS (upperS cs) = upChar c :: upperS cs
    rw [upChar_idem, ih]

/-- An upper-cased string never contains a lowercase ASCII letter. -/
theorem upperS_no_lower {s : Str} {c : Char} (hc : c ∈ upperS s) :
    ¬ (97 ≤ c.toNat ∧ c.toNat ≤ 122) := by
  rcases List.mem_map.1 hc with ⟨c0, _, rfl⟩
  exact upChar_not_lower c0

/-- A string containing a lowercase letter is not in the image of
`upperS`. -/
theorem upperS_ne_of_has_lower {l : Str} {c : Char}
    (hc : c ∈ l) (hlow : 97 ≤ c.toNat ∧ c.toNat ≤ 122) (s : Str) :
    upperS s ≠ l := by
  intro h
  exact upperS_no_lower (h ▸ hc) hlow

theorem upperS_no_newline {s : Str} (h : '\n' ∉ s) : '\n' ∉ upperS s := by
  intro hmem
  rcases List.mem_map.1 hmem with ⟨c, hc, hup⟩
  by_cases hl : 97 ≤ c.toNat ∧ c.toNat ≤ 122
  · have := congrArg Char.toNat hup
    rw [upChar_toNat_of_lower hl] at this
    have h10 : ('\n').toNat = 10 := by decide
    omega
  · rw [upChar_eq_of_not_lower hl] at hup
    exact h (hup ▸ hc)

/-! ## Lemmas: splitting -/

theorem splitWhen_ne_nil (p : Char → Bool) (s : Str) : splitWhen p s ≠ [] := by
  cases s with
  | nil => simp [splitWhen]
  | cons c cs =>
    unfold splitWhen
    by_cases h : p c
    · simp [h]
    · simp only [h]
      cases splitWhen p cs <;> simp

theorem splitWhen_nil (p : Char → Bool) : splitWhen p [] = [[]] := rfl

theorem splitWhen_cons_sep {p : Char → Bool} {c : Char} (h : p c = true) (cs : Str) :
    splitWhen p (c :: cs) = [] :: splitWhen p cs := by
  simp only [splitWhen]
  rw [if_pos h]

theorem splitWhen_cons_nosep {p : Char → Bool} {c : Char} (h : p c = false)
    (cs t : Str) (ts : List Str) (hcs : splitWhen p cs = t :: ts) :
    splitWhen p (c :: cs) = (c :: t) :: ts := by
  simp only [splitWhen]
  rw [if_neg (by simp [h]), hcs]

/-- Splitting distributes over a separator occurrence. -/
theorem splitWhen_append_sep {p : Char → Bool} {sep : Char} (hsep : p sep = true)
    (u v : Str) :
    splitWhen p (u ++ sep :: v) = splitWhen p u ++ splitWhen p v := by
  induction u with
  | nil =>
    rw [List.nil_append, splitWhen_cons_sep hsep, splitWhen_nil]
    rfl
  | cons c cs ih =>
    rw [List.cons_append]
    by_cases h : p c = true
    · rw [splitWhen_cons_sep h, splitWhen_cons_sep h, ih, List.cons_append]
    · have hf : p c = false := by simpa using h
      rcases hcs : splitWhen p cs with _ | ⟨t, ts⟩
      · exact absurd hcs (splitWhen_ne_nil p cs)
      · have h2 : splitWhen p (cs ++ sep :: v) = t :: (ts ++ splitWhen p v) := by
          rw [ih, hcs]
          rfl
        rw [splitWhen_cons_nosep hf _ _ _ h2, splitWhen_cons_nosep hf _ _ _ hcs]
        simp

/-- A chunk with no separator character splits into itself alone. -/
theorem splitWhen_no_sep {p : Char → Bool} {a : Str}
    (h : ∀ c ∈ a, p c = false) : splitWhen p a = [a] := by
  induction a with
  | nil => rfl
  | cons c cs ih =>
    unfold splitWhen
    rw [if_neg (by simp [h c (by simp)])]
    rw [ih (fun c2 hc2 => h c2 (by simp [hc2]))]

/-! ## Lemmas: the channels file -/

theorem dropLastEmpty_concat_nil (xs : List Str) :
    dropLastEmpty (xs ++ [[]]) = xs := by
  unfold dropLastEmpty
  rw [List.getLast?_concat]
  simp

/-- Appending one newline-free line (plus newline) to well-formed file
content appends exactly one loaded line. -/
theorem load_channels_append {content l : Str}
    (hend : content = [] ∨ ∃ a, content = a ++ ['\n'])
    (hl : '\n' ∉ l) :
    load_channels (content ++ l ++ ['\n']) = load_channels content ++ [l] := by
  have hnosep : ∀ c ∈ l, ((fun c => c == '\n') c) = false := by
    intro c hc
    exact beq_eq_false_iff_ne.2 (fun h => hl (h ▸ hc))
  have hsep : ((fun c => c == '\n') '\n') = true := by decide
  have hsplit_l : splitWhen (fun c => c == '\n') (l ++ '\n' :: []) = [l, []] := by
    rw [@splitWhen_append_sep (fun c => c == '\n') '\n' hsep l [],
        splitWhen_no_sep hnosep]
    rfl
  simp only [load_channels, splitOnChar]
  rcases hend with rfl | ⟨a, rfl⟩
  · rw [List.nil_append]
    rw [hsplit_l]
    rfl
  · have e1 : a ++ ['\n'] ++ l ++ ['\n'] = a ++ '\n' :: (l ++ '\n' :: []) := by simp
    rw [e1, @splitWhen_append_sep (fun c => c == '\n') '\n' hsep a (l ++ '\n' :: []),
        show a ++ ['\n'] = a ++ '\n' :: [] from rfl,
        @splitWhen_append_sep (fun c => c == '\n') '\n' hsep a [],
        hsplit_l, splitWhen_nil]
    have e3 : splitWhen (fun c => c == '\n') a ++ [l, []]
        = (splitWhen (fun c => c == '\n') a ++ [l]) ++ [[]] := by simp
    rw [e3, dropLastEmpty_concat_nil, dropLastEmpty_concat_nil]

/-- Number of list entries satisfying a test. -/
def countBy (p : Str → Bool) : List Str → Nat
  | [] => 0
  | y :: ys => (if p y then 1 else 0) + countBy p ys

theorem countBy_append (q : Str → Bool) (a b : List Str) :
    countBy q (a ++ b) = countBy q a + countBy q b := by
  induction a with
  | nil => simp [countBy]
  | cons y ys ih => simp [countBy, ih]; omega

theorem countBy_eq_zero {q : Str → Bool} {l : List Str}
    (h : ∀ y ∈ l, q y = false) : countBy q l = 0 := by
  induction l with
  | nil => rfl
  | cons y ys ih =>
    simp [countBy, h y (by simp)]
    exact ih (fun y2 hy2 => h y2 (by simp [hy2]))

/-! ## Claim theorems -/

/-- C3: starting from a consistent registry state whose file is
well-formed (empty or newline-terminated) and in which the channel
name is absent case-insensitively, the first `App.add_channel` appends
exactly the one upper-cased line `upperS c ++ "\n"` to the channels
file and reloads the registry; a second add of the same name in any
letter case finds it via `channel_exists` and performs no file write
(reporting "already exists", modeled by the `none` result); and the
resulting file holds exactly one entry for the channel, both literally
and case-insensitively. -/
theorem c3_add_channel_idempotent (st : RegState) (c w : Str)
    (hcons : st.channels = load_channels st.file)
    (hend : st.file = [] ∨ ∃ a, st.file = a ++ ['\n'])
    (habs : ∀ l ∈ load_channels st.file, upperS l ≠ upperS c)
    (hnl : '\n' ∉ c)
    (hw : upperS w = upperS c) :
    (add_channel st c).1.file = st.file ++ upperS c ++ ['\n'] ∧
    (add_channel st c).1.channels = load_channels st.file ++ [upperS c] ∧
    (add_channel st c).2 = some (upperS c ++ ['\n']) ∧
    channel_exists (add_channel st c).1.channels w = true ∧
    add_channel (add_channel st c).1 w = ((add_channel st c).1, none) ∧
    countBy (fun l => decide (l = upperS c))
      (load_channels (add_channel st c).1.file) = 1 ∧
    countBy (fun l => decide (upperS l = upperS c))
      (load_channels (add_channel st c).1.file) = 1 := by
  have hnotmem : upperS c ∉ load_channels st.file := by
    intro hmem
    exact habs (upperS c) hmem (upperS_idem c)
  have hex : channel_exists st.channels c = false := by
    unfold channel_exists
    rw [hcons, if_neg hnotmem]
  have hadd : add_channel st c
      = (⟨st.file ++ upperS c ++ ['\n'],
          load_channels (st.file ++ upperS c ++ ['\n'])⟩,
         some (upperS c ++ ['\n'])) := by
    unfold add_channel
    rw [hex]
    rfl
  have hlines : load_channels (st.file ++ upperS c ++ ['\n'])
      = load_channels st.file ++ [upperS c] :=
    load_channels_append hend (upperS_no_newline hnl)
  have hmem2 : upperS w ∈ load_channels (st.file ++ upperS c ++ ['\n']) := by
    rw [hlines, hw]
    exact List.mem_append_right _ (by simp)
  have hex2 : channel_exists (load_channels (st.file ++ upperS c ++ ['\n'])) w
      = true := by
    unfold channel_exists
    rw [if_pos hmem2]
  refine ⟨by rw [hadd], by rw [hadd]; exact hlines, by rw [hadd],
    by rw [hadd]; exact hex2, ?_, ?_, ?_⟩
  · rw [hadd]
    unfold add_channel
    rw [hex2]
    rw [if_pos rfl]
  · rw [hadd]
    show countBy _ (load_channels (st.file ++ upperS c ++ ['\n'])) = 1
    rw [hlines, countBy_append]
    rw [countBy_eq_zero (fun y hy => by
      simp only [decide_eq_false_iff_not]
      intro heq
      exact hnotmem (heq ▸ hy))]
    simp [countBy]
  · rw [hadd]
    show countBy _ (load_channels (st.file ++ upperS c ++ ['\n'])) = 1
    rw [hlines, countBy_append]
    rw [countBy_eq_zero (fun y hy => by
      simp only [decide_eq_false_iff_not]
      exact habs y hy)]
    simp [countBy, upperS_idem]

/-- C3 witness: adding "signal" to an empty registry writes the line
`SIGNAL`, and adding "SIGNAL" afterwards is a no-op. -/
theorem c3_add_channel_idempotent_witness :
    (add_channel ⟨[], []⟩ (("signal").data)).1.file = ("SIGNAL\n").data ∧
    add_channel (add_channel ⟨[], []⟩ (("signal").data)).1 (("SIGNAL").data)
      = ((add_channel ⟨[], []⟩ (("signal").data)).1, none) ∧
    countBy (fun l => decide (l = upperS (("signal").data)))
      (load_channels (add_channel ⟨[], []⟩ (("signal").data)).1.file) = 1 := by
  have h := c3_add_channel_idempotent ⟨[], []⟩ (("signal").data) (("SIGNAL").data)
    (by decide)
    (Or.inl rfl)
    (by
      intro l hl
      rw [show load_channels ([] : Str) = [] from by decide] at hl
      exact absurd hl (List.not_mem_nil l))
    (by decide)
    (by decide)
  exact ⟨h.1.trans (by decide), h.2.2.2.2.1, h.2.2.2.2.2.1⟩

/-- C4: the query texts executed by `_add_poi`, `_update_poi` and
`_add_ci` are built by direct string concatenation: the raw POI name,
attribute key and value, and the upper-cased channel
(relationship-type) token appear verbatim between fixed query
fragments, rather than being bound as `$`-parameters. -/
theorem c4_write_queries_concatenate
    (name poi info_key info_value channel contacting contacted start_s end_s : Str) :
    (∃ pre post, addPoiQuery name = pre ++ name ++ post) ∧
    (∃ pre mid1 mid2 post,
      updatePoiQuery poi info_key info_value
        = pre ++ poi ++ mid1 ++ info_key ++ mid2 ++ info_value ++ post) ∧
    (∃ pre mid1 mid2 mid3 mid4 post,
      addCiQuery (upperS channel) contacting contacted start_s end_s
        = pre ++ contacting ++ mid1 ++ contacted ++ mid2 ++ upperS channel
          ++ mid3 ++ start_s ++ mid4 ++ end_s ++ post) := by
  refine ⟨?_, ?_, ?_⟩
  · exact ⟨("CREATE (p:POI \x7bname: \x27").data,
      ("\x27 \x7d)RETURN p.name AS name").data, rfl⟩
  · exact ⟨("MATCH (poi:POI \x7bname: \x27").data, ("\x27\x7d) SET poi.").data,
      (" = \x27").data, ("\x27 RETURN poi").data, rfl⟩
  · exact ⟨("MATCH (contacting:POI \x7bname: \x27").data,
      ("\x27 \x7d) MATCH (contacted:POI \x7bname: \x27").data,
      ("\x27\x7d) MERGE (contacting)-[ci:").data,
      (" \x7bstart_time: ").data, (", end_time: ").data,
      ("\x7d]->(contacted) RETURN contacting, contacted, ci").data, rfl⟩

/-- C7: `!q` moves both BASIC and ADVANCED mode to QUIT (with no other
observable effect), and QUIT is terminal: the input loop consumes no
further input and performs no further transition. -/
theorem c7_quit_terminal (tzWest : Nat) (db : DbOracle) (reg : RegState) :
    stepBasic tzWest db reg (("!q").data) = (CLIState.QUIT, reg, []) ∧
    stepAdv db reg (("!q").data) = (CLIState.QUIT, reg, []) ∧
    (∀ inputs reg2, run tzWest db CLIState.QUIT reg2 inputs
      = (CLIState.QUIT, reg2)) := by
  refine ⟨?_, ?_, ?_⟩
  · unfold stepBasic
    rw [if_pos rfl]
  · unfold stepAdv
    rw [if_pos rfl]
  · intro inputs reg2
    cases inputs with
    | nil => rfl
    | cons i rest =>
      unfold run
      rw [if_pos rfl]

/-- C10: `channel_exists` is literal membership of the upper-cased
probe among the loaded lines, so a file line containing a lowercase
letter can never be matched; adding the very name that lowercase line
holds does not report "already exists" but appends a second,
upper-cased line alongside it. -/
theorem c10_lowercase_line_never_matched (st : RegState) (l name : Str) (c0 : Char)
    (hcons : st.channels = load_channels st.file)
    (hend : st.file = [] ∨ ∃ a, st.file = a ++ ['\n'])
    (hl : l ∈ load_channels st.file)
    (hc0 : c0 ∈ l)
    (hlow : 97 ≤ c0.toNat ∧ c0.toNat ≤ 122)
    (hup : upperS name = upperS l)
    (habs : upperS name ∉ load_channels st.file)
    (hnl : '\n' ∉ name) :
    (∀ ch, channel_exists st.channels ch = true ↔ upperS ch ∈ load_channels st.file) ∧
    (∀ ch, upperS ch ≠ l) ∧
    channel_exists st.channels name = false ∧
    (add_channel st name).2 = some (upperS name ++ ['\n']) ∧
    load_channels (add_channel st name).1.file
      = load_channels st.file ++ [upperS name] ∧
    l ∈ load_channels (add_channel st name).1.file ∧
    upperS name ∈ load_channels (add_channel st name).1.file ∧
    l ≠ upperS name := by
  have hiff : ∀ ch, channel_exists st.channels ch = true
      ↔ upperS ch ∈ load_channels st.file := by
    intro ch
    unfold channel_exists
    rw [hcons]
    by_cases hm : upperS ch ∈ load_channels st.file
    · rw [if_pos hm]; simp [hm]
    · rw [if_neg hm]; simp [hm]
  have hnever : ∀ ch, upperS ch ≠ l := upperS_ne_of_has_lower hc0 hlow
  have hex : channel_exists st.channels name = false := by
    have := hiff name
    rcases h : channel_exists st.channels name with _ | _
    · rfl
    · exact absurd (this.1 h) habs
  have hadd : add_channel st name
      = (⟨st.file ++ upperS name ++ ['\n'],
          load_channels (st.file ++ upperS name ++ ['\n'])⟩,
         some (upperS name ++ ['\n'])) := by
    unfold add_channel
    rw [hex]
    rfl
  have hlines : load_channels (st.file ++ upperS name ++ ['\n'])
      = load_channels st.file ++ [upperS name] :=
    load_channels_append hend (upperS_no_newline hnl)
  refine ⟨hiff, hnever, hex, by rw [hadd], by rw [hadd]; exact hlines, ?_, ?_, ?_⟩
  · rw [hadd]
    show l ∈ load_channels (st.file ++ upperS name ++ ['\n'])
    rw [hlines]
    exact List.mem_append_left _ hl
  · rw [hadd]
    show upperS name ∈ load_channels (st.file ++ upperS name ++ ['\n'])
    rw [hlines]
    exact List.mem_append_right _ (by simp)
  · exact fun h => hnever name h.symm

/-- C10 witness: with the file holding the single lowercase line
`signal`, probing and re-adding "signal" appends a second line
`SIGNAL`. -/
theorem c10_lowercase_line_never_matched_witness :
    channel_exists [("signal").data] (("signal").data) = false ∧
    load_channels (add_channel ⟨("signal\n").data, [("signal").data]⟩
        (("signal").data)).1.file
      = [("signal").data, ("SIGNAL").data] ∧
    upperS (("Signal").data) ≠ ("signal").data := by
  have h := c10_lowercase_line_never_matched
    ⟨("signal\n").data, [("signal").data]⟩ (("signal").data) (("signal").data) 's'
    (by decide)
    (Or.inr ⟨("signal").data, by decide⟩)
    (by decide)
    (by decide)
    (by decide)
    rfl
    (by decide)
    (by decide)
  exact ⟨h.2.2.1, h.2.2.2.2.1.trans (by decide), h.2.1 (("Signal").data)⟩

/-! ## Lemmas: `communicated_with` rendering -/

theorem renderRows_eq_firstOcc (poi : Str) (rows : List (Str × Nat))
    (seen : List Str) :
    renderRows poi rows seen
      = (firstOcc rows seen).map (fun p => renderRow poi p.1 p.2) := by
  induction rows generalizing seen with
  | nil => rfl
  | cons r rest ih =>
    rcases r with ⟨c, len⟩
    unfold renderRows firstOcc
    by_cases h : c ∈ seen
    · rw [if_pos h, if_pos h]
      exact ih seen
    · rw [if_neg h, if_neg h]
      rw [List.map_cons, ih (c :: seen)]

theorem firstOcc_names_nodup (rows : List (Str × Nat)) (seen : List Str) :
    ((firstOcc rows seen).map Prod.fst).Nodup ∧
    ∀ p ∈ firstOcc rows seen, p.1 ∉ seen := by
  induction rows generalizing seen with
  | nil => exact ⟨List.nodup_nil, by simp [firstOcc]⟩
  | cons r rest ih =>
    rcases r with ⟨c, len⟩
    unfold firstOcc
    by_cases h : c ∈ seen
    · rw [if_pos h]
      exact ih seen
    · rw [if_neg h]
      rcases ih (c :: seen) with ⟨hnd, hnin⟩
      constructor
      · rw [List.map_cons]
        refine List.nodup_cons.2 ⟨?_, hnd⟩
        intro hmem
        rcases List.mem_map.1 hmem with ⟨p, hp, hfst⟩
        exact hnin p hp (by rw [hfst]; exact List.mem_cons_self c seen)
      · intro p hp
        rcases List.mem_cons.1 hp with heq | hp2
        · rw [heq]
          exact h
        · exact fun hs => hnin p hp2 (List.mem_cons_of_mem c hs)

theorem firstOcc_firstVal (rows : List (Str × Nat)) (seen : List Str)
    (c : Str) (len : Nat) (hc : c ∉ seen) :
    (c, len) ∈ firstOcc rows seen ↔ firstVal c rows = some len := by
  induction rows generalizing seen with
  | nil => simp [firstOcc, firstVal]
  | cons r rest ih =>
    rcases r with ⟨c2, l2⟩
    unfold firstOcc firstVal
    by_cases h2 : c2 ∈ seen
    · rw [if_pos h2]
      have hne : c2 ≠ c := fun he => hc (he ▸ h2)
      rw [if_neg hne]
      exact ih seen hc
    · rw [if_neg h2]
      by_cases he : c2 = c
      · subst he
        rw [if_pos rfl]
        constructor
        · intro hmem
          rcases List.mem_cons.1 hmem with heq | hmem2
          · injection heq with hh1 hh2
            rw [hh2]
          · have := (firstOcc_names_nodup rest (c2 :: seen)).2 _ hmem2
            exact absurd (List.mem_cons_self c2 seen) this
        · intro hsome
          injection hsome with hh
          rw [hh]
          exact List.mem_cons_self _ _
      · rw [if_neg he]
        have hc2 : c ∉ c2 :: seen := by
          intro hmem
          rcases List.mem_cons.1 hmem with heq | hmem2
          · exact he heq.symm
          · exact hc hmem2
        constructor
        · intro hmem
          rcases List.mem_cons.1 hmem with heq | hmem2
          · injection heq with hh1 hh2
            exact absurd hh1.symm he
          · exact (ih (c2 :: seen) hc2).1 hmem2
        · intro hsome
          exact List.mem_cons_of_mem _ ((ih (c2 :: seen) hc2).2 hsome)

theorem firstOcc_sublist (rows : List (Str × Nat)) (seen : List Str) :
    (firstOcc rows seen).Sublist rows := by
  induction rows generalizing seen with
  | nil => simp [firstOcc]
  | cons r rest ih =>
    rcases r with ⟨c, len⟩
    unfold firstOcc
    by_cases h : c ∈ seen
    · rw [if_pos h]
      exact List.Sublist.cons _ (ih seen)
    · rw [if_neg h]
      exact List.Sublist.cons₂ _ (ih (c :: seen))

/-- C8: for every result-row list, the `communicated_with` rendering
prints exactly one chain line per distinct contacted name — the first
occurrence in row order (so, with rows ordered by length, the shortest
path): the output is the first-occurrence sublist mapped through
`renderRow`, whose line places `length - 1` intermediate `"(POI)---"`
markers between the source and destination names; the kept names are
pairwise distinct, and each kept length is the one of the name's first
row. -/
theorem c8_communicated_with_render (poi : Str) (rows : List (Str × Nat)) :
    communicated_with_render poi rows
      = (firstOcc rows []).map (fun p => renderRow poi p.1 p.2) ∧
    ((firstOcc rows []).map Prod.fst).Nodup ∧
    (∀ c len, ((c, len) ∈ firstOcc rows [] ↔ firstVal c rows = some len)) ∧
    (firstOcc rows []).Sublist rows ∧
    (∀ c len, renderRow poi c len
      = natRepr len ++ ("          (").data ++ poi ++ (")---").data
        ++ markerRep (len - 1) ++ ("(").data ++ c ++ (")").data) :=
  ⟨renderRows_eq_firstOcc poi rows [], (firstOcc_names_nodup rows []).1,
    fun c len => firstOcc_firstVal rows [] c len (List.not_mem_nil c),
    firstOcc_sublist rows [], fun _ _ => rfl⟩

/-- C9 counterexample: in ADVANCED mode the unrecognized line
`!bogus foo` is sent verbatim to the database; no "unknown command"
message is printed. -/
theorem c9_counterexample :
    stepAdv (fun _ => none) ⟨[], []⟩ (("!bogus foo").data)
      = (CLIState.ADVANCED, ⟨[], []⟩, [Effect.dbAuto (("!bogus foo").data)]) ∧
    (∀ e ∈ (stepAdv (fun _ => none) ⟨[], []⟩ (("!bogus foo").data)).2.2,
      e ≠ Effect.print (("unknown command: !bogus foo").data)) := by
  decide

/-- The nine argument-taking command guards of BASIC mode, in source
order. -/
def cmdTokens : List Str :=
  [("!add_poi ").data, ("!update_poi ").data, ("!add_channel ").data,
   ("!outgoing ").data, ("!communicated_with ").data, ("!comm_between ").data,
   ("!add_ci ").data, ("!direct_channels ").data, ("!channels_date ").data]

/-- C9 (amended): in BASIC mode, an input line matching no recognized
command token prints exactly the "unknown command" message and leaves
state and registry unchanged; in ADVANCED mode such a line leaves the
state and registry unchanged too, but is sent verbatim as a raw query
instead of producing an "unknown command" message. -/
theorem c9_unknown_command (tzWest : Nat) (db : DbOracle) (reg : RegState)
    (input : Str)
    (h1 : input ≠ ("!q").data) (h2 : input ≠ ("!adv").data)
    (h3 : input ≠ ("!basic").data)
    (h4 : ∀ p ∈ cmdTokens, strStarts p input = false) :
    stepBasic tzWest db reg input
      = (CLIState.BASIC, reg, [Effect.print (("unknown command: ").data ++ input)]) ∧
    (stepAdv db reg input).1 = CLIState.ADVANCED ∧
    (stepAdv db reg input).2.1 = reg := by
  have t1 := h4 (("!add_poi ").data) (by simp [cmdTokens])
  have t2 := h4 (("!update_poi ").data) (by simp [cmdTokens])
  have t3 := h4 (("!add_channel ").data) (by simp [cmdTokens])
  have t4 := h4 (("!outgoing ").data) (by simp [cmdTokens])
  have t5 := h4 (("!communicated_with ").data) (by simp [cmdTokens])
  have t6 := h4 (("!comm_between ").data) (by simp [cmdTokens])
  have t7 := h4 (("!add_ci ").data) (by simp [cmdTokens])
  have t8 := h4 (("!direct_channels ").data) (by simp [cmdTokens])
  have t9 := h4 (("!channels_date ").data) (by simp [cmdTokens])
  refine ⟨?_, ?_⟩
  · unfold stepBasic
    rw [if_neg h1, if_neg h2, if_neg h3]
    unfold dispatchBasic
    rw [t1, t2, t3, t4, t5, t6, t7, t8, t9]
    simp
  · unfold stepAdv
    rw [if_neg h1, if_neg h3, if_neg h2]
    cases hdb : db input with
    | none => exact ⟨rfl, rfl⟩
    | some e => cases e <;> exact ⟨rfl, rfl⟩

/-- C9 witness: `!bogus foo` in BASIC mode. -/
theorem c9_unknown_command_witness :
    stepBasic 0 (fun _ => none) ⟨[], []⟩ (("!bogus foo").data)
      = (CLIState.BASIC, ⟨[], []⟩,
         [Effect.print (("unknown command: !bogus foo").data)]) := by
  have h := c9_unknown_command 0 (fun _ => none) ⟨[], []⟩ (("!bogus foo").data)
    (by decide) (by decide) (by decide) (by decide)
  exact h.1.trans (by decide)

/-- C5: no error raised while handling a command line is fatal.  A
step from BASIC or ADVANCED reaches QUIT only on the literal input
`!q`; whenever BASIC dispatch raises (wrong argument counts, malformed
timestamps, database errors — all modeled as `some e`), the catch-all
prints the error after the effects already performed and the mode and
registry stay as the dispatch left them; a non-`CypherSyntaxError`
raised by an ADVANCED query is likewise caught and printed; and the
loop then continues with the remaining input. -/
theorem c5_no_domain_error_fatal (tzWest : Nat) (db : DbOracle) (reg : RegState)
    (input : Str) :
    ((stepBasic tzWest db reg input).1 = CLIState.QUIT → input = ("!q").data) ∧
    ((stepAdv db reg input).1 = CLIState.QUIT → input = ("!q").data) ∧
    (∀ reg2 effs e, input ≠ ("!q").data → input ≠ ("!adv").data →
      input ≠ ("!basic").data →
      dispatchBasic tzWest db reg input = (reg2, effs, some e) →
      stepBasic tzWest db reg input
        = (CLIState.BASIC, reg2, effs ++ [Effect.print (pyMsg e)])) ∧
    (∀ e, db input = some e → e ≠ PyErr.cypherSyntax →
      input ≠ ("!q").data → input ≠ ("!basic").data → input ≠ ("!adv").data →
      stepAdv db reg input
        = (CLIState.ADVANCED, reg, [Effect.dbAuto input, Effect.print (pyMsg e)])) ∧
    (∀ rest s, s ≠ CLIState.QUIT →
      run tzWest db s reg (input :: rest)
        = run tzWest db (step tzWest db s reg input).1
            (step tzWest db s reg input).2.1 rest) := by
  refine ⟨?_, ?_, ?_, ?_, ?_⟩
  · intro hquit
    by_cases hq : input = ("!q").data
    · exact hq
    · exfalso
      unfold stepBasic at hquit
      rw [if_neg hq] at hquit
      by_cases ha : input = ("!adv").data
      · rw [if_pos ha] at hquit
        simp at hquit
      · rw [if_neg ha] at hquit
        by_cases hb : input = ("!basic").data
        · rw [if_pos hb] at hquit
          simp at hquit
        · rw [if_neg hb] at hquit
          rcases hd : dispatchBasic tzWest db reg input with ⟨reg2, effs, e⟩
          rw [hd] at hquit
          cases e <;> simp at hquit
  · intro hquit
    by_cases hq : input = ("!q").data
    · exact hq
    · exfalso
      unfold stepAdv at hquit
      rw [if_neg hq] at hquit
      by_cases hb : input = ("!basic").data
      · rw [if_pos hb] at hquit
        simp at hquit
      · rw [if_neg hb] at hquit
        by_cases ha : input = ("!adv").data
        · rw [if_pos ha] at hquit
          simp at hquit
        · rw [if_neg ha] at hquit
          cases hdb : db input with
          | none => rw [hdb] at hquit; simp at hquit
          | some e => rw [hdb] at hquit; cases e <;> simp at hquit
  · intro reg2 effs e hq ha hb hd
    unfold stepBasic
    rw [if_neg hq, if_neg ha, if_neg hb, hd]
  · intro e hdb hcy hq hb ha
    unfold stepAdv
    rw [if_neg hq, if_neg hb, if_neg ha, hdb]
    cases e with
    | cypherSyntax => exact absurd rfl hcy
    | valueError m => rfl
    | indexError => rfl
    | dbError m => rfl
  · intro rest s hs
    have h1 : run tzWest db s reg (input :: rest)
        = if s = CLIState.QUIT then (s, reg)
          else run tzWest db (step tzWest db s reg input).1
              (step tzWest db s reg input).2.1 rest := rfl
    rw [h1, if_neg hs]

/-- C5 witness: a wrong argument count for `!update_poi` is caught,
printed, and leaves the state BASIC. -/
theorem c5_no_domain_error_fatal_witness :
    stepBasic 0 (fun _ => none) ⟨[], []⟩ (("!update_poi x").data)
      = (CLIState.BASIC, ⟨[], []⟩, [Effect.print (pyMsg unpackErr)]) := by
  have h := (c5_no_domain_error_fatal 0 (fun _ => none) ⟨[], []⟩
    (("!update_poi x").data)).2.2.1 ⟨[], []⟩ [] unpackErr
    (by decide) (by decide) (by decide) (by decide)
  exact h.trans (by decide)

/-- C6 counterexample: `!add_poi` declares one argument, but the line
`!add_poi alice bob` carrying two is accepted without any error: the
handler prints the full argument list and creates a POI from the first
argument only. -/
theorem c6_counterexample :
    cl_add_poi (fun _ => none) (("!add_poi alice bob").data)
      = ([Effect.print (("adding poi [\x27alice\x27, \x27bob\x27]").data),
          Effect.dbWrite (addPoiQuery (("alice").data))], none) := by
  decide

/-- C6 (amended): the seven commands that tuple-unpack their arguments
(`!update_poi`, `!add_channel`, `!communicated_with`, `!comm_between`,
`!add_ci`, `!direct_channels`, `!channels_date`) raise the generic
unpack `ValueError` (caught and printed by the input loop) on any
argument count other than the declared one; but `!add_poi` and
`!outgoing` only index element 0, raising `IndexError` when no
argument is present and silently accepting any surplus arguments. -/
theorem c6_argument_counts (tzWest : Nat) (db : DbOracle) (reg : RegState)
    (input : Str) :
    ((splitArgs input).length ≠ 3 → (cl_update_poi db input).2 = some unpackErr) ∧
    ((splitArgs input).length ≠ 1 → (cl_add_channel reg input).2.2 = some unpackErr) ∧
    ((splitArgs input).length ≠ 2 →
      (cl_communicated_with db input).2 = some unpackErr) ∧
    ((splitArgs input).length ≠ 2 → (cl_comm_between db input).2 = some unpackErr) ∧
    ((splitArgs input).length ≠ 5 →
      (cl_add_ci db tzWest reg input).2 = some unpackErr) ∧
    ((splitArgs input).length ≠ 2 →
      (cl_direct_channels db input).2 = some unpackErr) ∧
    ((splitArgs input).length ≠ 2 →
      (cl_channels_date db tzWest input).2 = some unpackErr) ∧
    ((splitArgs input).length = 0 → (cl_add_poi db input).2 = some PyErr.indexError) ∧
    (∀ a rest, splitArgs input = a :: rest →
      (cl_add_poi db input).2 = db (addPoiQuery a)) ∧
    ((splitArgs input).length = 0 → (cl_outgoing db input).2 = some PyErr.indexError) ∧
    (∀ a rest, splitArgs input = a :: rest → (cl_outgoing db input).2 = db outgoingQuery) := by
  refine ⟨?_, ?_, ?_, ?_, ?_, ?_, ?_, ?_, ?_, ?_, ?_⟩
  · intro hlen
    unfold cl_update_poi
    split
    · next a b c heq => exact absurd (by rw [heq]; rfl) hlen
    · rfl
  · intro hlen
    unfold cl_add_channel
    split
    · next a heq => exact absurd (by rw [heq]; rfl) hlen
    · rfl
  · intro hlen
    unfold cl_communicated_with
    split
    · next a b heq => exact absurd (by rw [heq]; rfl) hlen
    · rfl
  · intro hlen
    unfold cl_comm_between
    split
    · next a b heq => exact absurd (by rw [heq]; rfl) hlen
    · rfl
  · intro hlen
    unfold cl_add_ci
    split
    · next a b c d e heq => exact absurd (by rw [heq]; rfl) hlen
    · rfl
  · intro hlen
    unfold cl_direct_channels
    split
    · next a b heq => exact absurd (by rw [heq]; rfl) hlen
    · rfl
  · intro hlen
    unfold cl_channels_date
    split
    · next a b heq => exact absurd (by rw [heq]; rfl) hlen
    · rfl
  · intro hlen
    unfold cl_add_poi
    split
    · rfl
    · next a rest heq => rw [heq] at hlen; simp at hlen
  · intro a rest h
    unfold cl_add_poi
    split
    · next heq => rw [heq] at h; exact absurd h (by simp)
    · next a2 rest2 heq =>
      rw [heq] at h
      injection h with h1 h2
      rw [h1]
  · intro hlen
    unfold cl_outgoing
    split
    · rfl
    · next a rest heq => rw [heq] at hlen; simp at hlen
  · intro a rest h
    unfold cl_outgoing
    split
    · next heq => rw [heq] at h; exact absurd h (by simp)
    · next a2 rest2 heq => rfl

/-- C6 witness: `!update_poi` with two arguments errors; `!outgoing`
with two arguments succeeds. -/
theorem c6_argument_counts_witness :
    (cl_update_poi (fun _ => none) (("!update_poi a b").data)).2 = some unpackErr ∧
    (cl_outgoing (fun _ => none) (("!outgoing alice bob").data)).2 = none := by
  constructor
  · exact (c6_argument_counts 0 (fun _ => none) ⟨[], []⟩
      (("!update_poi a b").data)).1 (by decide)
  · have h := (c6_argument_counts 0 (fun _ => none) ⟨[], []⟩
      (("!outgoing alice bob").data)).2.2.2.2.2.2.2.2.2.2
      (("alice").data) [("bob").data] (by decide)
    exact h.trans rfl

/-- C1 counterexample: with only channel `ALICE` registered, the line
`!add_ci signal alice bob 2024-01-01_09:00 2024-01-01_09:05` — whose
*first* positional argument names a channel absent from the registry —
is not rejected: the handler treats the second argument `alice` as the
channel and issues the MERGE write (with relationship type `ALICE`,
source `signal`, target `bob`). -/
theorem c1_counterexample :
    channel_exists [("ALICE").data] (("signal").data) = false ∧
    cl_add_ci (fun _ => none) 0 ⟨("ALICE\n").data, [("ALICE").data]⟩
      (("!add_ci signal alice bob 2024-01-01_09:00 2024-01-01_09:05").data)
      = ([Effect.print (("adding alice between signal and bob with start time 2024-01-01_09:00 and end time 2024-01-01_09:05").data),
          Effect.dbWrite (addCiQuery (("ALICE").data) (("signal").data)
            (("bob").data) (natRepr 1704099600) (natRepr 1704099900))],
         none) := by
  decide

/-- C1 (amended): `!add_ci` takes its positional arguments as
`<poi1> <channel> <poi2> <start> <end>` — the channel is the *second*
argument, not the first; the caller checks it against the registry
and, when it is absent, rejects the command with a user message and
performs no database write and no file append; when it is present the
handler proceeds, announcing the second argument as the channel
between the first and third. -/
theorem c1_add_ci_channel_is_second_arg (db : DbOracle) (tzWest : Nat)
    (st : RegState) (input : Str) (a b c d e : Str)
    (hsplit : splitArgs input = [a, b, c, d, e]) :
    (channel_exists st.channels b = false →
      cl_add_ci db tzWest st input
        = ([Effect.print (("specified channel does not exist, please add channel first (!add_channel).").data)],
           none)) ∧
    (channel_exists st.channels b = true →
      ∃ effs err, cl_add_ci db tzWest st input
        = (Effect.print (("adding ").data ++ b ++ (" between ").data ++ a
            ++ (" and ").data ++ c ++ (" with start time ").data ++ d
            ++ (" and end time ").data ++ e) :: effs, err)) := by
  constructor
  · intro hex
    simp only [cl_add_ci, hsplit]
    rw [hex]
    simp
  · intro hex
    simp only [cl_add_ci, hsplit, hex]
    rw [if_pos trivial]
    rcases hu1 : get_unixtime tzWest d with er1 | v1
    · exact ⟨[], some er1, rfl⟩
    · rcases hu2 : get_unixtime tzWest e with er2 | v2
      · exact ⟨[], some er2, rfl⟩
      · exact ⟨[Effect.dbWrite (addCiQuery (upperS b) a c (natRepr v1) (natRepr v2))],
          db (addCiQuery (upperS b) a c (natRepr v1) (natRepr v2)), rfl⟩

/-- C1 witness: an absent channel in the second position is rejected
with no database write. -/
theorem c1_add_ci_channel_is_second_arg_witness :
    cl_add_ci (fun _ => none) 0 ⟨("SIGNAL\n").data, [("SIGNAL").data]⟩
      (("!add_ci alice bogus bob 2024-01-01_09:00 2024-01-01_09:05").data)
      = ([Effect.print (("specified channel does not exist, please add channel first (!add_channel).").data)],
         none) := by
  exact (c1_add_ci_channel_is_second_arg (fun _ => none) 0
    ⟨("SIGNAL\n").data, [("SIGNAL").data]⟩
    (("!add_ci alice bogus bob 2024-01-01_09:00 2024-01-01_09:05").data)
    (("alice").data) (("bogus").data) (("bob").data)
    (("2024-01-01_09:00").data) (("2024-01-01_09:05").data)
    (by decide)).1 (by decide)

/-- C2 counterexample: under a non-UTC local timezone (here one hour
west of UTC, `tzWest = 3600`), encoding `2024-03-01_10:30` with
`get_unixtime` and decoding with `get_datetime` does not round-trip:
it yields `2024-03-01 11:30:00`, shifted by the local offset. -/
theorem c2_counterexample :
    get_unixtime 3600 (("2024-03-01_10:30").data) = Except.ok 1709292600 ∧
    get_datetime 1709292600 = ("2024-03-01 11:30:00").data ∧
    ("2024-03-01 11:30:00").data ≠ ("2024-03-01 10:30:00").data := by
  decide

/-! ## Lemmas: decimal formatting and parsing -/

/-- Value of a little-endian digit list. -/
def littleVal : List Nat → Nat
  | [] => 0
  | d2 :: ds => d2 + 10 * littleVal ds

theorem natDigitsRev_val : ∀ fuel n, n ≤ fuel →
    littleVal (natDigitsRev fuel n) = n := by
  intro fuel
  induction fuel with
  | zero =>
    intro n hn
    have h0 : n = 0 := Nat.le_zero.1 hn
    rw [h0]
    rfl
  | succ f ih =>
    intro n hn
    match n with
    | 0 => rfl
    | k + 1 =>
      show (k + 1) % 10 + 10 * littleVal (natDigitsRev f ((k + 1) / 10)) = k + 1
      rw [ih ((k + 1) / 10) (by omega)]
      omega

theorem natDigitsRev_lt : ∀ fuel n d2, d2 ∈ natDigitsRev fuel n → d2 < 10 := by
  intro fuel
  induction fuel with
  | zero => intro n d2 h; exact absurd h (by simp [natDigitsRev])
  | succ f ih =>
    intro n d2 h
    match n with
    | 0 => exact absurd h (by simp [natDigitsRev])
    | k + 1 =>
      rw [show natDigitsRev (f + 1) (k + 1)
          = (k + 1) % 10 :: natDigitsRev f ((k + 1) / 10) from rfl] at h
      rcases List.mem_cons.1 h with heq | h2
      · rw [heq]; omega
      · exact ih _ _ h2

theorem digitChar_val : ∀ d2, d2 < 10 → (digitChar d2).toNat - 48 = d2 := by decide

theorem digitChar_isDigit : ∀ d2, d2 < 10 → isDigitC (digitChar d2) = true := by decide

theorem foldl_digits_map (ds : List Nat) (acc : Nat) (hds : ∀ d2 ∈ ds, d2 < 10) :
    List.foldl (fun a c => a * 10 + (c.toNat - 48)) acc (ds.map digitChar)
      = List.foldl (fun a d2 => a * 10 + d2) acc ds := by
  induction ds generalizing acc with
  | nil => rfl
  | cons d2 rest ih =>
    show List.foldl _ (acc * 10 + ((digitChar d2).toNat - 48)) (rest.map digitChar) = _
    rw [digitChar_val d2 (hds d2 (by simp))]
    exact ih _ (fun x hx => hds x (by simp [hx]))

theorem foldl_base10_reverse (ds : List Nat) (acc : Nat) :
    List.foldl (fun a d2 => a * 10 + d2) acc ds.reverse
      = acc * 10 ^ ds.length + littleVal ds := by
  induction ds generalizing acc with
  | nil => simp [littleVal]
  | cons d2 rest ih =>
    rw [List.reverse_cons, List.foldl_append, ih acc]
    show (acc * 10 ^ rest.length + littleVal rest) * 10 + d2
      = acc * 10 ^ (d2 :: rest).length + littleVal (d2 :: rest)
    rw [List.length_cons]
    show _ = acc * 10 ^ (rest.length + 1) + (d2 + 10 * littleVal rest)
    ring

theorem digitsVal_natChars (n : Nat) : digitsVal (natChars n) = n := by
  unfold digitsVal natChars
  rw [foldl_digits_map _ 0 (fun d2 hd2 => natDigitsRev_lt n n d2 (List.mem_reverse.1 hd2))]
  rw [foldl_base10_reverse]
  rw [natDigitsRev_val n n (Nat.le_refl n)]
  simp

theorem digitsVal_natRepr (n : Nat) : digitsVal (natRepr n) = n := by
  unfold natRepr
  by_cases h : n = 0
  · rw [if_pos h, h]; decide
  · rw [if_neg h]; exact digitsVal_natChars n

theorem natRepr_all_digits (n : Nat) : ∀ c ∈ natRepr n, isDigitC c = true := by
  intro c hc
  unfold natRepr at hc
  by_cases h : n = 0
  · rw [if_pos h] at hc
    simp at hc
    rw [hc]
    decide
  · rw [if_neg h] at hc
    unfold natChars at hc
    rcases List.mem_map.1 hc with ⟨d2, hd2, hrfl⟩
    rw [← hrfl]
    exact digitChar_isDigit d2 (natDigitsRev_lt n n d2 (List.mem_reverse.1 hd2))

theorem natRepr_ne_nil (n : Nat) : natRepr n ≠ [] := by
  unfold natRepr
  by_cases h : n = 0
  · rw [if_pos h]; simp
  · rw [if_neg h]
    unfold natChars
    cases n with
    | zero => exact absurd rfl h
    | succ k =>
      rw [show natDigitsRev (k + 1) (k + 1)
          = (k + 1) % 10 :: natDigitsRev k ((k + 1) / 10) from rfl]
      simp

theorem leftPadZero_all_digits (w n : Nat) :
    ∀ c ∈ leftPadZero w (natRepr n), isDigitC c = true := by
  intro c hc
  unfold leftPadZero at hc
  rcases List.mem_append.1 hc with h1 | h2
  · rw [List.eq_of_mem_replicate h1]; decide
  · exact natRepr_all_digits n c h2

theorem foldl_zeros : ∀ k, List.foldl (fun a c => a * 10 + (c.toNat - 48)) 0
    (List.replicate k '0') = 0 := by
  intro k
  induction k with
  | zero => rfl
  | succ kk ih =>
    rw [List.replicate_succ]
    show List.foldl _ (0 * 10 + (('0').toNat - 48)) (List.replicate kk '0') = 0
    rw [show 0 * 10 + (('0').toNat - 48) = 0 from by decide]
    exact ih

theorem digitsVal_leftPad (w n : Nat) :
    digitsVal (leftPadZero w (natRepr n)) = n := by
  unfold digitsVal leftPadZero
  rw [List.foldl_append, foldl_zeros]
  exact digitsVal_natRepr n

theorem parseDigits_leftPad (w n : Nat) :
    parseDigits (leftPadZero w (natRepr n)) = Except.ok n := by
  have hne : leftPadZero w (natRepr n) ≠ [] := by
    unfold leftPadZero
    intro h
    exact natRepr_ne_nil n (List.append_eq_nil.1 h).2
  have hall : (leftPadZero w (natRepr n)).all isDigitC = true :=
    List.all_eq_true.2 (fun c hc => leftPadZero_all_digits w n c hc)
  rcases hcs : leftPadZero w (natRepr n) with _ | ⟨c, cs⟩
  · exact absurd hcs hne
  · rw [hcs] at hall
    show (if (c :: cs).all isDigitC then Except.ok (digitsVal (c :: cs))
      else Except.error (PyErr.valueError (("invalid literal for int").data))) = Except.ok n
    rw [hall, if_pos rfl, ← hcs, digitsVal_leftPad]

theorem parseDigits_pad2 (n : Nat) : parseDigits (pad2 n) = Except.ok n :=
  parseDigits_leftPad 2 n

theorem parseDigits_pad4 (n : Nat) : parseDigits (pad4 n) = Except.ok n :=
  parseDigits_leftPad 4 n

/-! ## Lemmas: timestamp splitting and calendar arithmetic -/

theorem isDigitC_not_sep {c : Char} (h : isDigitC c = true) : isTimeSep c = false := by
  have hv : 48 ≤ c.toNat ∧ c.toNat ≤ 57 := by
    simpa [isDigitC] using h
  have h1 : c ≠ '-' := fun he => absurd (he ▸ hv) (by decide)
  have h2 : c ≠ '_' := fun he => absurd (he ▸ hv) (by decide)
  have h3 : c ≠ ':' := fun he => absurd (he ▸ hv) (by decide)
  simp [isTimeSep, h1, h2, h3]

theorem pad4_not_sep (n : Nat) : ∀ c ∈ pad4 n, isTimeSep c = false :=
  fun c hc => isDigitC_not_sep (leftPadZero_all_digits 4 n c hc)

theorem pad2_not_sep (n : Nat) : ∀ c ∈ pad2 n, isTimeSep c = false :=
  fun c hc => isDigitC_not_sep (leftPadZero_all_digits 2 n c hc)

/-- The canonical timestamp string splits into its five fields. -/
theorem splitWhen_fmtIn (y m d h mi : Nat) :
    splitWhen isTimeSep (fmtTimestampIn y m d h mi)
      = [pad4 y, pad2 m, pad2 d, pad2 h, pad2 mi] := by
  have e : fmtTimestampIn y m d h mi
      = pad4 y ++ '-' :: (pad2 m ++ '-' :: (pad2 d ++ '_' :: (pad2 h ++ ':' :: pad2 mi))) := by
    simp [fmtTimestampIn, List.append_assoc]
  have hdash : isTimeSep '-' = true := by decide
  have hund : isTimeSep '_' = true := by decide
  have hcol : isTimeSep ':' = true := by decide
  rw [e, splitWhen_append_sep hdash, splitWhen_append_sep hdash,
      splitWhen_append_sep hund, splitWhen_append_sep hcol,
      splitWhen_no_sep (pad4_not_sep y), splitWhen_no_sep (pad2_not_sep m),
      splitWhen_no_sep (pad2_not_sep d), splitWhen_no_sep (pad2_not_sep h),
      splitWhen_no_sep (pad2_not_sep mi)]
  rfl

theorem daysInYear_pos (y : Nat) : 1 ≤ daysInYear y := by
  unfold daysInYear
  split <;> omega

theorem le_sumYearDays (y0 k : Nat) : k ≤ sumYearDays y0 k := by
  induction k generalizing y0 with
  | zero => simp [sumYearDays]
  | succ kk ih =>
    show kk + 1 ≤ daysInYear y0 + sumYearDays (y0 + 1) kk
    have h1 := daysInYear_pos y0
    have h2 := ih (y0 + 1)
    omega

theorem splitYear_exact : ∀ (k fuel y r : Nat), k ≤ fuel →
    r < daysInYear (y + k) →
    splitYear fuel y (sumYearDays y k + r) = (y + k, r) := by
  intro k
  induction k with
  | zero =>
    intro fuel y r hf hr
    rw [Nat.add_zero] at hr
    rw [show sumYearDays y 0 = 0 from rfl, Nat.zero_add, Nat.add_zero]
    cases fuel with
    | zero => rfl
    | succ f =>
      show (if r < daysInYear y then (y, r)
        else splitYear f (y + 1) (r - daysInYear y)) = (y, r)
      rw [if_pos hr]
  | succ kk ih =>
    intro fuel y r hf hr
    cases fuel with
    | zero => omega
    | succ f =>
      have hsum : sumYearDays y (kk + 1) = daysInYear y + sumYearDays (y + 1) kk := rfl
      show (if sumYearDays y (kk + 1) + r < daysInYear y then (y, sumYearDays y (kk + 1) + r)
        else splitYear f (y + 1) (sumYearDays y (kk + 1) + r - daysInYear y)) = (y + (kk + 1), r)
      rw [if_neg (by omega)]
      rw [show sumYearDays y (kk + 1) + r - daysInYear y
          = sumYearDays (y + 1) kk + r from by omega]
      rw [ih f (y + 1) r (by omega)
        (by rw [show y + 1 + kk = y + (kk + 1) from by omega]; exact hr)]
      rw [show y + 1 + kk = y + (kk + 1) from by omega]

theorem splitMonth_exact (y : Nat) : ∀ (k fuel m r : Nat), k ≤ fuel →
    r < daysInMonth y (m + k) →
    splitMonth y fuel m (sumMonthDays y m k + r) = (m + k, r) := by
  intro k
  induction k with
  | zero =>
    intro fuel m r hf hr
    rw [Nat.add_zero] at hr
    rw [show sumMonthDays y m 0 = 0 from rfl, Nat.zero_add, Nat.add_zero]
    cases fuel with
    | zero => rfl
    | succ f =>
      show (if r < daysInMonth y m then (m, r)
        else splitMonth y f (m + 1) (r - daysInMonth y m)) = (m, r)
      rw [if_pos hr]
  | succ kk ih =>
    intro fuel m r hf hr
    cases fuel with
    | zero => omega
    | succ f =>
      have hsum : sumMonthDays y m (kk + 1) = daysInMonth y m + sumMonthDays y (m + 1) kk := rfl
      show (if sumMonthDays y m (kk + 1) + r < daysInMonth y m
          then (m, sumMonthDays y m (kk + 1) + r)
        else splitMonth y f (m + 1) (sumMonthDays y m (kk + 1) + r - daysInMonth y m))
        = (m + (kk + 1), r)
      rw [if_neg (by omega)]
      rw [show sumMonthDays y m (kk + 1) + r - daysInMonth y m
          = sumMonthDays y (m + 1) kk + r from by omega]
      rw [ih f (m + 1) r (by omega)
        (by rw [show m + 1 + kk = m + (kk + 1) from by omega]; exact hr)]
      rw [show m + 1 + kk = m + (kk + 1) from by omega]

theorem sumMonthDays_add (y : Nat) : ∀ (a b m : Nat),
    sumMonthDays y m (a + b) = sumMonthDays y m a + sumMonthDays y (m + a) b := by
  intro a
  induction a with
  | zero => intro b m; simp [sumMonthDays]
  | succ aa ih =>
    intro b m
    rw [show aa + 1 + b = (aa + b) + 1 from by omega]
    show daysInMonth y m + sumMonthDays y (m + 1) (aa + b) = _
    rw [ih b (m + 1)]
    rw [show sumMonthDays y m (aa + 1)
        = daysInMonth y m + sumMonthDays y (m + 1) aa from rfl]
    rw [show m + 1 + aa = m + (aa + 1) from by omega]
    omega

theorem sumMonthDays_full (y : Nat) : sumMonthDays y 1 12 = daysInYear y := by
  have hexp : sumMonthDays y 1 12
      = daysInMonth y 1 + (daysInMonth y 2 + (daysInMonth y 3 + (daysInMonth y 4
        + (daysInMonth y 5 + (daysInMonth y 6 + (daysInMonth y 7 + (daysInMonth y 8
        + (daysInMonth y 9 + (daysInMonth y 10 + (daysInMonth y 11
        + (daysInMonth y 12 + 0))))))))))) := rfl
  rw [hexp]
  rw [show daysInMonth y 1 = 31 from rfl, show daysInMonth y 3 = 31 from rfl,
      show daysInMonth y 4 = 30 from rfl, show daysInMonth y 5 = 31 from rfl,
      show daysInMonth y 6 = 30 from rfl, show daysInMonth y 7 = 31 from rfl,
      show daysInMonth y 8 = 31 from rfl, show daysInMonth y 9 = 30 from rfl,
      show daysInMonth y 10 = 31 from rfl, show daysInMonth y 11 = 30 from rfl,
      show daysInMonth y 12 = 31 from rfl]
  unfold daysInMonth daysInYear
  cases hly : isLeap y <;> simp [hly]

theorem dayIdx_lt (y m d : Nat) (hm1 : 1 ≤ m) (hm2 : m ≤ 12) (hd1 : 1 ≤ d)
    (hd2 : d ≤ daysInMonth y m) :
    sumMonthDays y 1 (m - 1) + (d - 1) < daysInYear y := by
  have h12 : (m - 1) + (1 + (12 - m)) = 12 := by omega
  have hsplit := sumMonthDays_add y (m - 1) (1 + (12 - m)) 1
  rw [h12] at hsplit
  rw [show 1 + (m - 1) = m from by omega] at hsplit
  have hstep : sumMonthDays y m (1 + (12 - m))
      = daysInMonth y m + sumMonthDays y (m + 1) (12 - m) := by
    rw [show 1 + (12 - m) = (12 - m) + 1 from by omega]
    rfl
  rw [hstep, sumMonthDays_full y] at hsplit
  omega

/-- Encoding the canonical timestamp string of an in-range civil tuple. -/
theorem get_unixtime_fmtIn (tzWest y m d h mi : Nat)
    (hc : 1970 ≤ y ∧ y ≤ 9999 ∧ 1 ≤ m ∧ m ≤ 12 ∧ 1 ≤ d ∧ d ≤ daysInMonth y m
      ∧ h ≤ 23 ∧ mi ≤ 59) :
    get_unixtime tzWest (fmtTimestampIn y m d h mi)
      = Except.ok (unixOfTuple y m d h mi + tzWest) := by
  simp only [get_unixtime, splitWhen_fmtIn, parseDigits_pad4, parseDigits_pad2]
  rw [if_pos hc]

/-- Decoding the unix time of an in-range civil tuple renders the
civil tuple back. -/
theorem get_datetime_unix (y m d h mi : Nat)
    (hy1 : 1970 ≤ y) (hm1 : 1 ≤ m) (hm2 : m ≤ 12) (hd1 : 1 ≤ d)
    (hd2 : d ≤ daysInMonth y m) (hh : h ≤ 23) (hmi : mi ≤ 59) :
    get_datetime (unixOfTuple y m d h mi) = fmtTimestampOut y m d h mi := by
  have hdiv : unixOfTuple y m d h mi / 86400 = daysFromCivil y m d := by
    unfold unixOfTuple; omega
  have hremh : unixOfTuple y m d h mi % 86400 / 3600 = h := by
    unfold unixOfTuple; omega
  have hremmi : unixOfTuple y m d h mi % 86400 % 3600 / 60 = mi := by
    unfold unixOfTuple; omega
  have hrems : unixOfTuple y m d h mi % 86400 % 60 = 0 := by
    unfold unixOfTuple; omega
  have hD : daysFromCivil y m d
      = sumYearDays 1970 (y - 1970) + (sumMonthDays y 1 (m - 1) + (d - 1)) := by
    unfold daysFromCivil; omega
  have hidx : sumMonthDays y 1 (m - 1) + (d - 1) < daysInYear y :=
    dayIdx_lt y m d hm1 hm2 hd1 hd2
  have hSY : splitYear (daysFromCivil y m d) 1970 (daysFromCivil y m d)
      = (y, sumMonthDays y 1 (m - 1) + (d - 1)) := by
    rw [hD]
    have h := splitYear_exact (y - 1970)
      (sumYearDays 1970 (y - 1970) + (sumMonthDays y 1 (m - 1) + (d - 1)))
      1970 (sumMonthDays y 1 (m - 1) + (d - 1))
      (by have := le_sumYearDays 1970 (y - 1970); omega)
      (by rw [show 1970 + (y - 1970) = y from by omega]; exact hidx)
    rw [h, show 1970 + (y - 1970) = y from by omega]
  have hSM : splitMonth y 12 1 (sumMonthDays y 1 (m - 1) + (d - 1)) = (m, d - 1) := by
    have h := splitMonth_exact y (m - 1) 12 1 (d - 1)
      (by omega)
      (by rw [show 1 + (m - 1) = m from by omega]; omega)
    rw [show sumMonthDays y 1 (m - 1) + (d - 1)
        = sumMonthDays y 1 (m - 1) + (d - 1) from rfl] at h
    rw [h, show 1 + (m - 1) = m from by omega]
  simp only [get_datetime, hdiv, hremh, hremmi, hrems, hSY, hSM]
  rw [show d - 1 + 1 = d from by omega]
  simp only [fmtTimestampOut]
  rw [show pad2 0 = (['0', '0'] : Str) from by decide]
  simp [List.append_assoc]

/-- C2 (amended): under a UTC local environment (`tzWest = 0`, where
`time.mktime` agrees with UTC), every timestamp in the
`YYYY-MM-DD_HH:MM` format with in-range fields (years 1970–9999)
round-trips: `get_unixtime` encodes it to the unix time of the civil
tuple and `get_datetime` renders that back as the corresponding
`YYYY-MM-DD HH:MM:00` display string — in particular
`"2024-03-01_10:30"` comes back as `"2024-03-01 10:30:00"`.  Under a
non-UTC local timezone the decode is shifted by the offset (see the
counterexample). -/
theorem c2_roundtrip_utc (y m d h mi : Nat)
    (hy1 : 1970 ≤ y) (hy2 : y ≤ 9999) (hm1 : 1 ≤ m) (hm2 : m ≤ 12)
    (hd1 : 1 ≤ d) (hd2 : d ≤ daysInMonth y m) (hh : h ≤ 23) (hmi : mi ≤ 59) :
    get_unixtime 0 (fmtTimestampIn y m d h mi)
      = Except.ok (unixOfTuple y m d h mi) ∧
    get_datetime (unixOfTuple y m d h mi) = fmtTimestampOut y m d h mi := by
  constructor
  · rw [get_unixtime_fmtIn 0 y m d h mi ⟨hy1, hy2, hm1, hm2, hd1, hd2, hh, hmi⟩,
        Nat.add_zero]
  · exact get_datetime_unix y m d h mi hy1 hm1 hm2 hd1 hd2 hh hmi

/-- C2 witness: the round trip at 2024-03-01 10:30 under UTC. -/
theorem c2_roundtrip_utc_witness :
    get_unixtime 0 (("2024-03-01_10:30").data) = Except.ok 1709289000 ∧
    get_datetime 1709289000 = ("2024-03-01 10:30:00").data := by
  have h := c2_roundtrip_utc 2024 3 1 10 30 (by decide) (by decide) (by decide)
    (by decide) (by decide) (by decide) (by decide) (by decide)
  have e1 : fmtTimestampIn 2024 3 1 10 30 = ("2024-03-01_10:30").data := by decide
  have e2 : unixOfTuple 2024 3 1 10 30 = 1709289000 := by decide
  have e3 : fmtTimestampOut 2024 3 1 10 30 = ("2024-03-01 10:30:00").data := by decide
  constructor
  · have h1 := h.1
    rw [e1, e2] at h1
    exact h1
  · have h2 := h.2
    rw [e2, e3] at h2
    exact h2

end Odin
